import Mathlib

/-!
Verification of the private-access speedtest core against its specification.

The statistics engine (`MetricsCalculator`), the orchestrator's echo/round-trip
bookkeeping and run lifecycle (`TestOrchestrator`), and the backend download and
upload handlers (`server.js` / `server-secure.js`) are shallowly embedded below.
JavaScript numbers are modelled as exact rationals (ℚ), JavaScript arrays as
lists, and the single-threaded event-loop callbacks as explicit event traces
folded over step functions.  Definitions marked `spec...` restate the
specification's wording and are compared against the code translations.
-/

/-- One throughput sample, `{ bytes, timestamp }` as pushed by
`addThroughputSample`. -/
structure Sample where
  bytes : ℚ
  timestamp : ℚ
deriving DecidableEq

namespace MetricsCalculator

/-- The mutable fields of `MetricsCalculator` set up by `reset()` that the
claims touch (the constant bucket/window sizes are modelled as definitions). -/
structure MetricsState where
  throughputSamples : List Sample
  rttSamples : List (ℚ × ℚ)
  jitterEstimate : ℚ
  jitterSamples : List ℚ
  lostEchoes : ℕ
  sentEchoes : ℕ
  lastRtt : ℚ
deriving DecidableEq

/-- State immediately after `reset()`. -/
def initState : MetricsState :=
  ⟨[], [], 0, [], 0, 0, 0⟩

/-- Translation of `MetricsCalculator.percentile(sortedArray, percentile)`:
index `p/100*(L-1)`, linear interpolation between the floor and ceiling
entries; empty array gives 0 and a single-element array gives its element. -/
def percentile (sortedArray : List ℚ) (p : ℚ) : ℚ :=
  if sortedArray.length = 0 then 0
  else if sortedArray.length = 1 then sortedArray.getD 0 0
  else
    let index := p / 100 * ((sortedArray.length : ℚ) - 1)
    let lower := (⌊index⌋).toNat
    let upper := (⌈index⌉).toNat
    let weight := index - ⌊index⌋
    sortedArray.getD lower 0 * (1 - weight) + sortedArray.getD upper 0 * weight

/-- The comparator `(a, b) => a.timestamp - b.timestamp` used by
`calculateThroughput`; JavaScript `Array.sort` is stable, modelled by a stable
insertion sort. -/
def sortByTimestamp (l : List Sample) : List Sample :=
  List.insertionSort (fun a b => a.timestamp ≤ b.timestamp) l

instance : IsTotal Sample (fun a b => a.timestamp ≤ b.timestamp) :=
  ⟨fun a b => le_total a.timestamp b.timestamp⟩

instance : IsTrans Sample (fun a b => a.timestamp ≤ b.timestamp) :=
  ⟨fun _ _ _ h1 h2 => le_trans h1 h2⟩

/-- Numeric ascending sort `(a, b) => a - b`, used for rate and RTT lists. -/
def sortRates (l : List ℚ) : List ℚ :=
  List.insertionSort (fun a b : ℚ => a ≤ b) l

/-- `this.windowSize = 1000` ms, the rolling-window length. -/
def windowSizeMs : ℚ := 1000

/-- The Mbps conversion `(bytesInWindow * 8) / (this.windowSize / 1000) / 1e6`. -/
def windowRate (bytesInWindow : ℚ) : ℚ :=
  bytesInWindow * 8 / (windowSizeMs / 1000) / 1000000

/-- The inner `j` loop of `calculateThroughput`: starting at the anchor's
position, accumulate bytes while `timestamp < windowEnd`, then `break`. -/
def windowBytes (fromAnchor : List Sample) (windowEnd : ℚ) : ℚ :=
  (fromAnchor.takeWhile (fun x => decide (x.timestamp < windowEnd))).foldl
    (fun acc x => acc + x.bytes) 0

/-- The outer `i` loop of `calculateThroughput`: one window rate per anchor
sample, each window scanning from the anchor's own index onward. -/
def windowRatesAux : List Sample → List ℚ
  | [] => []
  | s :: rest =>
      windowRate (windowBytes (s :: rest) (s.timestamp + windowSizeMs)) :: windowRatesAux rest

/-- JavaScript `Math.max(...list)` on a rate list (the code only applies it to
nonempty lists; the empty case is given a harmless value). -/
def jsMax : List ℚ → ℚ
  | [] => 0
  | x :: xs => xs.foldl max x

/-- Result record of `calculateThroughput`. -/
structure ThroughputMetrics where
  medianMbps : ℚ
  p95Mbps : ℚ
  p99Mbps : ℚ
  avgMbps : ℚ
  maxMbps : ℚ
deriving DecidableEq

/-- The all-zero metrics returned for empty sample sets. -/
def zeroThroughput : ThroughputMetrics := ⟨0, 0, 0, 0, 0⟩

/-- The warm-up discard of `calculateThroughput`: sort by timestamp, then keep
the samples with `timestamp >= sorted[0].timestamp + warmupMs`. -/
def measuredOf (warmupMs : ℚ) (samples : List Sample) : List Sample :=
  (sortByTimestamp samples).filter
    (fun s =>
      decide (((sortByTimestamp samples).headD ⟨0, 0⟩).timestamp + warmupMs ≤ s.timestamp))

/-- The statistics block at the end of `calculateThroughput`: median, p95 and
p99 by `percentile`, `reduce`-average, and `Math.max` over the sorted rates. -/
def throughputStats (sortedRates : List ℚ) : ThroughputMetrics :=
  ⟨percentile sortedRates 50, percentile sortedRates 95, percentile sortedRates 99,
   sortedRates.foldl (fun acc r => acc + r) 0 / (sortedRates.length : ℚ),
   jsMax sortedRates⟩

/-- Translation of `MetricsCalculator.calculateThroughput(warmupMs = 3000)`:
sort by timestamp, drop samples before `first.timestamp + warmupMs`, compute
per-anchor window rates, and report percentile/average/maximum statistics. -/
def calculateThroughput (warmupMs : ℚ) (st : MetricsState) : ThroughputMetrics :=
  if st.throughputSamples.length = 0 then zeroThroughput
  else if (measuredOf warmupMs st.throughputSamples).length = 0 then zeroThroughput
  else throughputStats (sortRates (windowRatesAux (measuredOf warmupMs st.throughputSamples)))

/-- Result record of `calculateLatency`. -/
structure LatencyMetrics where
  minMs : ℚ
  avgMs : ℚ
  medianMs : ℚ
  p95Ms : ℚ
  p99Ms : ℚ
deriving DecidableEq

/-- Translation of `MetricsCalculator.calculateLatency()`. -/
def calculateLatency (st : MetricsState) : LatencyMetrics :=
  if st.rttSamples.length = 0 then ⟨0, 0, 0, 0, 0⟩
  else
    let rtts := st.rttSamples.map (fun s => s.1)
    let sortedRtts := sortRates rtts
    ⟨sortedRtts.getD 0 0,
     rtts.foldl (fun acc r => acc + r) 0 / (rtts.length : ℚ),
     percentile sortedRtts 50, percentile sortedRtts 95, percentile sortedRtts 99⟩

/-- Result record of `calculateJitter`. -/
structure JitterMetrics where
  meanMs : ℚ
  p95Ms : ℚ
deriving DecidableEq

/-- Translation of `MetricsCalculator.calculateJitter()`. -/
def calculateJitter (st : MetricsState) : JitterMetrics :=
  if st.jitterSamples.length = 0 then ⟨0, 0⟩
  else ⟨st.jitterEstimate, percentile (sortRates st.jitterSamples) 95⟩

/-- Translation of `MetricsCalculator.calculatePacketLoss()`. -/
def calculatePacketLoss (st : MetricsState) : ℚ :=
  if st.sentEchoes = 0 then 0
  else ((st.lostEchoes : ℚ) / (st.sentEchoes : ℚ)) * 100

/-- The coefficient-of-variation term of `calculateStability`, guarded by
`throughput.avgMbps > 0`. -/
def stabilityCv (t : ThroughputMetrics) : ℚ :=
  if 0 < t.avgMbps then |t.medianMbps - t.avgMbps| / t.avgMbps else 0

/-- Translation of `MetricsCalculator.calculateStability(warmupMs = 3000)`:
`Math.round(Math.max(0, Math.min(100, 100 - cv*100 - latencyPenalty)))` with
`latencyPenalty = Math.min(p95Ms / 10, 50)`; `Math.round` is `round` (floor of
x + 1/2). -/
def calculateStability (warmupMs : ℚ) (st : MetricsState) : ℤ :=
  round (max 0 (min 100
    (100 - stabilityCv (calculateThroughput warmupMs st) * 100 -
      min ((calculateLatency st).p95Ms / 10) 50)))

/-- Translation of `MetricsCalculator.addThroughputSample(bytes, timestamp)`. -/
def addThroughputSample (st : MetricsState) (bytes timestamp : ℚ) : MetricsState :=
  { st with throughputSamples := st.throughputSamples ++ [⟨bytes, timestamp⟩] }

/-- Translation of `MetricsCalculator.addRttSample(rtt, timestamp)`: count the
echo, record the RTT, and update the RFC-3550 jitter estimator guarded by
`this.lastRtt > 0`. -/
def addRttSample (st : MetricsState) (rtt timestamp : ℚ) : MetricsState :=
  let st1 := { st with
    sentEchoes := st.sentEchoes + 1,
    rttSamples := st.rttSamples ++ [(rtt, timestamp)] }
  if 0 < st1.lastRtt then
    let D := |rtt - st1.lastRtt|
    { st1 with
      jitterEstimate := st1.jitterEstimate + (D - st1.jitterEstimate) / 16,
      jitterSamples := st1.jitterSamples ++ [D],
      lastRtt := rtt }
  else
    { st1 with lastRtt := rtt }

/-- Translation of `MetricsCalculator.addLostEcho()`. -/
def addLostEcho (st : MetricsState) : MetricsState :=
  { st with sentEchoes := st.sentEchoes + 1, lostEchoes := st.lostEchoes + 1 }

/-- Specification wording for the window sum (claim C1): for an anchor
timestamp, sum the bytes of ALL measured samples whose timestamp falls within
the 1000 ms window starting at the anchor, and convert to Mbps per
window-second. -/
def specWindowRate (measured : List Sample) (anchor : ℚ) : ℚ :=
  ((measured.filter (fun x =>
      decide (anchor ≤ x.timestamp ∧ x.timestamp < anchor + windowSizeMs))).map
    (fun x => x.bytes)).sum * 8 / 1000000 / (windowSizeMs / 1000)

/-- Specification statistics block (claim C1): interpolated percentiles of
the sorted rate list, their average, and their maximum. -/
def specThroughputStats (sortedRates : List ℚ) : ThroughputMetrics :=
  ⟨percentile sortedRates 50, percentile sortedRates 95, percentile sortedRates 99,
   sortedRates.sum / (sortedRates.length : ℚ),
   (sortedRates.max?).getD 0⟩

/-- Specification wording for summary throughput (claim C1): sort by
timestamp, discard the warm-up span, produce one window rate per anchor sample
by summing over all samples inside the anchor's window, then report median,
p95, p99 (interpolated percentiles of the sorted rate list), average and
maximum of the window rates. -/
def specCalculateThroughput (warmupMs : ℚ) (st : MetricsState) : ThroughputMetrics :=
  if st.throughputSamples.length = 0 then zeroThroughput
  else if (measuredOf warmupMs st.throughputSamples).length = 0 then zeroThroughput
  else
    specThroughputStats (sortRates
      ((measuredOf warmupMs st.throughputSamples).map
        (fun s => specWindowRate (measuredOf warmupMs st.throughputSamples) s.timestamp)))

/-- Specification wording for the jitter recurrence (claim C3), threaded over
the RTT sequence: the first sample establishes the previous RTT and
contributes no D value; each later sample contributes `D = |rtt - prev|` and
updates the estimate by `(D - estimate)/16`. -/
def specJitterEstimateGo : ℚ → Option ℚ → List ℚ → ℚ
  | est, _, [] => est
  | est, none, r :: rest => specJitterEstimateGo est (some r) rest
  | est, some prev, r :: rest =>
      specJitterEstimateGo (est + (|r - prev| - est) / 16) (some r) rest

/-- Specification jitter estimate over a whole RTT sequence. -/
def specJitterEstimate (rtts : List ℚ) : ℚ :=
  specJitterEstimateGo 0 none rtts

/-- Specification history of D values over the RTT sequence (claim C3). -/
def specDHistoryGo : Option ℚ → List ℚ → List ℚ
  | _, [] => []
  | none, r :: rest => specDHistoryGo (some r) rest
  | some prev, r :: rest => |r - prev| :: specDHistoryGo (some r) rest

/-- Specification D-value history from the initial (no previous RTT) state. -/
def specDHistory (rtts : List ℚ) : List ℚ :=
  specDHistoryGo none rtts

/-- Specification wording for the coefficient-of-variation term of the
stability score (claim C5): `|median - avg| / avg`, and 0 when avg is 0. -/
def specCv (t : ThroughputMetrics) : ℚ :=
  if t.avgMbps = 0 then 0 else |t.medianMbps - t.avgMbps| / t.avgMbps

/-- Concrete sample state whose only surviving post-warm-up sample carries
125000 bytes (the specification's 1.0 Mbps example). -/
def singleState : MetricsState :=
  { initState with throughputSamples := [⟨1, 0⟩, ⟨125000, 3000⟩] }

/-- Concrete sample state with two surviving samples sharing one timestamp,
separating the code's anchored window sum from the specification's
all-samples window sum. -/
def dupState : MetricsState :=
  { initState with throughputSamples := [⟨1, 0⟩, ⟨125000, 3000⟩, ⟨125000, 3000⟩] }

end MetricsCalculator

namespace TestOrchestrator

open MetricsCalculator

/-- Resolution of one echo probe as counted by the orchestrator callbacks:
either a matching response arrived before the timeout (`addRttSample`) or the
timeout fired first (`addLostEcho`). -/
inductive EchoOutcome where
  | matched (rtt timestamp : ℚ)
  | lost
deriving DecidableEq

/-- Apply one resolved probe to the metrics calculator. -/
def applyEchoOutcome (st : MetricsState) : EchoOutcome → MetricsState
  | .matched rtt ts => addRttSample st rtt ts
  | .lost => addLostEcho st

/-- Whether an outcome is a timeout. -/
def isLostOutcome : EchoOutcome → Bool
  | .lost => true
  | _ => false

/-- Events the single-threaded event loop can deliver to the echo machinery:
`sendEcho()` runs, a WebSocket response for sequence `seq` arrives, or the
per-probe timeout for sequence `seq` fires. -/
inductive EchoEvent where
  | send
  | response (seq : ℕ) (rtt timestamp : ℚ)
  | timeout (seq : ℕ)

/-- Echo bookkeeping state: `this.echoSeq`, the keys of `this.pendingEchoes`,
and a ghost record of which sequence numbers were resolved to an RTT sample
(`rttSeqs`) or counted as lost (`lostSeqs`), together with the metrics. -/
structure EchoState where
  echoSeq : ℕ
  pending : List ℕ
  rttSeqs : List ℕ
  lostSeqs : List ℕ
  metrics : MetricsState

/-- State before any echo is sent. -/
def echoInit : EchoState :=
  ⟨0, [], [], [], initState⟩

/-- One event-loop step of the echo machinery.  `sendEcho` registers the
current sequence number as pending and increments it; a response or timeout
resolves the probe only if its sequence number is still pending, otherwise it
is silently dropped (`handleEchoResponse` checks `pendingEchoes.has(seq)`, and
the timeout callback does the same). -/
def echoStep (st : EchoState) : EchoEvent → EchoState
  | .send =>
      { st with pending := st.pending ++ [st.echoSeq], echoSeq := st.echoSeq + 1 }
  | .response s rtt ts =>
      if s ∈ st.pending then
        { st with
          pending := st.pending.erase s,
          rttSeqs := st.rttSeqs ++ [s],
          metrics := addRttSample st.metrics rtt ts }
      else st
  | .timeout s =>
      if s ∈ st.pending then
        { st with
          pending := st.pending.erase s,
          lostSeqs := st.lostSeqs ++ [s],
          metrics := addLostEcho st.metrics }
      else st

/-- Invariant of the echo machinery used to prove the per-probe
exactly-one-outcome property. -/
def EchoInv (st : EchoState) : Prop :=
  st.pending.Nodup ∧ st.rttSeqs.Nodup ∧ st.lostSeqs.Nodup ∧
  (∀ s ∈ st.pending, s ∉ st.rttSeqs) ∧
  (∀ s ∈ st.pending, s ∉ st.lostSeqs) ∧
  (∀ s ∈ st.rttSeqs, s ∉ st.lostSeqs) ∧
  (∀ s ∈ st.pending, s < st.echoSeq) ∧
  (∀ s ∈ st.rttSeqs, s < st.echoSeq) ∧
  (∀ s ∈ st.lostSeqs, s < st.echoSeq) ∧
  st.metrics.rttSamples.length = st.rttSeqs.length ∧
  st.metrics.lostEchoes = st.lostSeqs.length ∧
  st.metrics.sentEchoes = st.rttSeqs.length + st.lostSeqs.length

/-- Terminal results a run can report. -/
inductive Terminal where
  | complete
  | error
  | cancelled
deriving DecidableEq

/-- How an exception reaching `start()`'s catch block is classified:
`error.name === 'AbortError'` maps to the cancelled result, everything else to
the error result. -/
inductive RunError where
  | abortNamed
  | otherNamed
deriving DecidableEq

/-- The catch block of `start()`. -/
def terminalOfError : RunError → Terminal
  | .abortNamed => .cancelled
  | .otherNamed => .error

/-- Outcome of `runDiscovery()`: a capabilities failure is wrapped in a plain
`new Error(...)` (name `Error`), so it never carries the abort name. -/
def runDiscoveryStep (capsOk : Bool) : Except RunError Unit :=
  if capsOk then .ok () else .error .otherNamed

/-- Outcome of `startLatencyTest()`: its rejections are plain `new Error(...)`
values (connection failure or timeout), never the abort name. -/
def startLatencyStep (wsOk : Bool) : Except RunError Unit :=
  if wsOk then .ok () else .error .otherNamed

/-- Outcome of a stream phase (`runWarmup`, `runRamp`, `runMeasure`): each
`runSingleDownloadStream` / `runSingleUploadStream` wraps its whole body in a
try/catch that swallows every error, including `AbortError`, so the phase
promise always resolves, whether or not the run was aborted. -/
def streamPhaseStep (_aborted : Bool) : Except RunError Unit :=
  .ok ()

/-- Outcome of `runCooldown()`: a bare `setTimeout` sleep that does not
observe the abort signal, so it always resolves. -/
def cooldownStep (_aborted : Bool) : Except RunError Unit :=
  .ok ()

/-- The phase sequence of `start()` under its try/catch: discovery, latency
setup, warm-up, ramp, measure-download, measure-upload, cooldown; the first
exception is classified by the catch block, otherwise the complete result is
emitted.  `abortedFromStep k` means `stop()` fired the shared abort signal
just before step `k` of the six post-discovery awaited steps. -/
def startRun (capsOk wsOk : Bool) (abortedFromStep : Option ℕ) : Terminal :=
  match runDiscoveryStep capsOk with
  | .error e => terminalOfError e
  | .ok _ =>
    match startLatencyStep wsOk with
    | .error e => terminalOfError e
    | .ok _ =>
      let aborted := fun (k : ℕ) =>
        match abortedFromStep with
        | none => false
        | some a => decide (a ≤ k)
      match streamPhaseStep (aborted 0) with
      | .error e => terminalOfError e
      | .ok _ =>
        match streamPhaseStep (aborted 1) with
        | .error e => terminalOfError e
        | .ok _ =>
          match streamPhaseStep (aborted 2) with
          | .error e => terminalOfError e
          | .ok _ =>
            match streamPhaseStep (aborted 3) with
            | .error e => terminalOfError e
            | .ok _ =>
              match cooldownStep (aborted 4) with
              | .error e => terminalOfError e
              | .ok _ => .complete

/-- The sampling call in `runSingleDownloadStream`:
`this.metrics.addThroughputSample(bucketBytes, now)`. -/
def recordDownloadSample (st : MetricsState) (bucketBytes now : ℚ) : MetricsState :=
  addThroughputSample st bucketBytes now

/-- The sampling call in `runSingleUploadStream`:
`this.metrics.addThroughputSample(chunkSize, Date.now())`. -/
def recordUploadSample (st : MetricsState) (chunkBytes now : ℚ) : MetricsState :=
  addThroughputSample st chunkBytes now

/-- A throughput sample tagged with the transfer direction that produced it. -/
inductive DirectedSample where
  | download (bytes timestamp : ℚ)
  | upload (bytes timestamp : ℚ)

/-- Route a directed sample through the orchestrator's recording call for its
direction. -/
def applyDirectedSample (st : MetricsState) : DirectedSample → MetricsState
  | .download b t => recordDownloadSample st b t
  | .upload b t => recordUploadSample st b t

/-- Forget the direction tag. -/
def stripDirection : DirectedSample → Sample
  | .download b t => ⟨b, t⟩
  | .upload b t => ⟨b, t⟩

/-- Swap the direction tag. -/
def flipDirection : DirectedSample → DirectedSample
  | .download b t => .upload b t
  | .upload b t => .download b t

end TestOrchestrator

namespace SpeedtestServer

/-- `MAX_BYTES_PER_STREAM = 25 * 1024 * 1024` in `server.js`. -/
def MAX_BYTES_PER_STREAM : ℕ := 25 * 1024 * 1024

/-- `CHUNK_SIZE = 256 * 1024` shared random buffer length. -/
def CHUNK_SIZE : ℕ := 256 * 1024

/-- `MAX_UPLOAD_SIZE = 100 * 1024 * 1024` in `server-secure.js`. -/
def MAX_UPLOAD_SIZE : ℕ := 100 * 1024 * 1024

/-- The `/download` duration computation
`Math.min(parseInt(req.query.seconds) || 15, 120)`: `none` stands for an
absent or unparseable parameter (`parseInt` gave `NaN`), and a parsed 0 is
falsy, so both fall back to 15 before the upper cap of 120 is applied. -/
def effectiveSeconds (q : Option ℤ) : ℤ :=
  min (match q with
       | none => 15
       | some v => if v = 0 then 15 else v) 120

/-- Specification wording for the duration (claim C8): the requested seconds
clamped to the interval [1, 120]. -/
def specClampSeconds (v : ℤ) : ℤ :=
  max 1 (min v 120)

/-- Observation of one `sendChunk` iteration: the wall clock at its start and
whether the response side is already ended. -/
structure DlTick where
  now : ℤ
  writableEnded : Bool

/-- The `sendChunk` loop of the `/download` handler: stop when the deadline
passed, the per-stream byte ceiling is reached, or the channel has ended;
otherwise write a chunk, truncated so as not to overshoot the ceiling, and
continue on the next tick. -/
def dlLoop : List DlTick → ℤ → ℕ → ℕ
  | [], _, bytesSent => bytesSent
  | t :: rest, endTime, bytesSent =>
      if endTime ≤ t.now ∨ MAX_BYTES_PER_STREAM ≤ bytesSent ∨ t.writableEnded then
        bytesSent
      else
        let chunkLen :=
          if MAX_BYTES_PER_STREAM < bytesSent + CHUNK_SIZE then
            MAX_BYTES_PER_STREAM - bytesSent
          else CHUNK_SIZE
        dlLoop rest endTime (bytesSent + chunkLen)

/-- Response the upload handlers can produce. -/
inductive UpResponse where
  | ok (receivedBytes : ℕ) (durationMs : ℤ)
  | tooLarge
deriving DecidableEq

/-- State of one `/upload` request: received byte count, whether the request
stream was paused, the response sent (if any), and whether the underlying
connection was destroyed. -/
structure UpState where
  receivedBytes : ℕ
  paused : Bool
  response : Option UpResponse
  destroyed : Bool
deriving DecidableEq

/-- State when the upload handler starts. -/
def upInit : UpState := ⟨0, false, none, false⟩

/-- The `data` listener of the basic `server.js` `/upload` handler: count the
chunk; past the ceiling it only pauses and unpipes the request, it sends no
response and does not touch the connection. -/
def uploadDataBasic (st : UpState) (len : ℕ) : UpState :=
  if st.destroyed then st
  else
    let st1 := { st with receivedBytes := st.receivedBytes + len }
    if MAX_BYTES_PER_STREAM < st1.receivedBytes then { st1 with paused := true }
    else st1

/-- The `end` listener of the basic `/upload` handler: respond with
`{receivedBytes, durationMs}` (HTTP 200) whatever the received total was. -/
def uploadEndBasic (st : UpState) (durationMs : ℤ) : UpState :=
  if st.destroyed then st
  else { st with response := some (.ok st.receivedBytes durationMs) }

/-- Fold the basic upload handler over the arriving chunks. -/
def runUploadBasicData (chunks : List ℕ) : UpState :=
  chunks.foldl uploadDataBasic upInit

/-- The `data` listener of the secure `/upload` handler (`server-secure.js`):
past the 100 MB ceiling it pauses the request, responds 413 "Upload too
large", and destroys the connection. -/
def uploadDataSecure (st : UpState) (len : ℕ) : UpState :=
  if st.destroyed then st
  else
    let st1 := { st with receivedBytes := st.receivedBytes + len }
    if MAX_UPLOAD_SIZE < st1.receivedBytes then
      { st1 with paused := true, response := some .tooLarge, destroyed := true }
    else st1

/-- The `end` listener of the secure `/upload` handler; a destroyed connection
delivers no further events. -/
def uploadEndSecure (st : UpState) (durationMs : ℤ) : UpState :=
  if st.destroyed then st
  else { st with response := some (.ok st.receivedBytes durationMs) }

/-- A whole secure upload request: all data chunks, then the stream's natural
end at elapsed time `durationMs`. -/
def runUploadSecure (chunks : List ℕ) (durationMs : ℤ) : UpState :=
  uploadEndSecure (chunks.foldl uploadDataSecure upInit) durationMs

end SpeedtestServer

/-! ## Theorems -/

namespace MetricsCalculator

lemma getD_mem_of_lt (l : List ℚ) (n : ℕ) (h : n < l.length) : l.getD n 0 ∈ l := by
  rw [List.getD_eq_getElem l 0 h]
  exact List.getElem_mem h

lemma sorted_head_le (l : List ℚ) (hs : l.Sorted (fun a b : ℚ => a ≤ b)) :
    ∀ x ∈ l, l.getD 0 0 ≤ x := by
  cases l with
  | nil => intro x hx; simp at hx
  | cons a t =>
      intro x hx
      rcases List.mem_cons.mp hx with rfl | hmem
      · simp
      · simpa using List.rel_of_sorted_cons hs x hmem

lemma sorted_le_getD_last (l : List ℚ) : l.Sorted (fun a b : ℚ => a ≤ b) →
    ∀ x ∈ l, x ≤ l.getD (l.length - 1) 0 := by
  induction l with
  | nil => intro _ x hx; simp at hx
  | cons a t ih =>
      intro hs x hx
      cases t with
      | nil =>
          rcases List.mem_cons.mp hx with rfl | hmem
          · simp
          · simp at hmem
      | cons b t2 =>
          have hs2 : (b :: t2).Sorted (fun a b : ℚ => a ≤ b) := hs.of_cons
          have hlen : (a :: b :: t2).length - 1 = ((b :: t2).length - 1) + 1 := by
            simp
          rw [hlen, List.getD_cons_succ]
          rcases List.mem_cons.mp hx with rfl | hmem
          · exact List.rel_of_sorted_cons hs _ (getD_mem_of_lt _ _ (by simp))
          · exact ih hs2 x hmem

lemma percentile_formula (l : List ℚ) (p : ℚ) (h2 : 2 ≤ l.length) :
    percentile l p =
      l.getD (⌊p / 100 * ((l.length : ℚ) - 1)⌋).toNat 0 *
        (1 - (p / 100 * ((l.length : ℚ) - 1) - ⌊p / 100 * ((l.length : ℚ) - 1)⌋)) +
      l.getD (⌈p / 100 * ((l.length : ℚ) - 1)⌉).toNat 0 *
        (p / 100 * ((l.length : ℚ) - 1) - ⌊p / 100 * ((l.length : ℚ) - 1)⌋) := by
  have h0 : ¬ l.length = 0 := by omega
  have h1 : ¬ l.length = 1 := by omega
  simp only [percentile, if_neg h0, if_neg h1]

lemma percentile_single (l : List ℚ) (h : l.length = 1) (p : ℚ) :
    percentile l p = l.getD 0 0 := by
  simp [percentile, h]

lemma percentile_zero (l : List ℚ) (hne : l ≠ []) : percentile l 0 = l.getD 0 0 := by
  rcases Nat.lt_or_ge l.length 2 with h | h
  · have h1 : l.length = 1 := by
      have := List.length_pos.mpr hne
      omega
    exact percentile_single l h1 0
  · rw [percentile_formula l 0 h]
    norm_num

lemma percentile_hundred (l : List ℚ) (hne : l ≠ []) :
    percentile l 100 = l.getD (l.length - 1) 0 := by
  rcases Nat.lt_or_ge l.length 2 with h | h
  · have h1 : l.length = 1 := by
      have := List.length_pos.mpr hne
      omega
    rw [percentile_single l h1 100, h1]
  · rw [percentile_formula l 100 h]
    have h1 : (1:ℕ) ≤ l.length := by omega
    have hc : (100:ℚ) / 100 * ((l.length : ℚ) - 1) = ((l.length - 1 : ℕ) : ℚ) := by
      rw [Nat.cast_sub h1]
      push_cast
      ring
    rw [hc, Int.floor_natCast, Int.ceil_natCast]
    simp

/-- Claim C2: for every sorted ascending list, `percentile` returns the value
at fractional index `p/100*(L-1)` with linear interpolation between the floor
and ceiling entries; `percentile(sorted, 0)` is the minimum,
`percentile(sorted, 100)` is the maximum, and a single-element list returns
its element for any percentile. -/
theorem C2_percentile_spec (l : List ℚ) (hs : l.Sorted (fun a b : ℚ => a ≤ b))
    (hne : l ≠ []) :
    (percentile l 0 ∈ l ∧ ∀ x ∈ l, percentile l 0 ≤ x) ∧
    (percentile l 100 ∈ l ∧ ∀ x ∈ l, x ≤ percentile l 100) ∧
    (∀ p : ℚ, l.length = 1 → percentile l p = l.getD 0 0) ∧
    (∀ p : ℚ, 2 ≤ l.length →
      percentile l p =
        l.getD (⌊p / 100 * ((l.length : ℚ) - 1)⌋).toNat 0 *
          (1 - (p / 100 * ((l.length : ℚ) - 1) - ⌊p / 100 * ((l.length : ℚ) - 1)⌋)) +
        l.getD (⌈p / 100 * ((l.length : ℚ) - 1)⌉).toNat 0 *
          (p / 100 * ((l.length : ℚ) - 1) - ⌊p / 100 * ((l.length : ℚ) - 1)⌋)) := by
  have hlen : 0 < l.length := List.length_pos.mpr hne
  refine ⟨⟨?_, ?_⟩, ⟨?_, ?_⟩, ?_, ?_⟩
  · rw [percentile_zero l hne]
    exact getD_mem_of_lt l 0 hlen
  · intro x hx
    rw [percentile_zero l hne]
    exact sorted_head_le l hs x hx
  · rw [percentile_hundred l hne]
    exact getD_mem_of_lt l _ (by omega)
  · intro x hx
    rw [percentile_hundred l hne]
    exact sorted_le_getD_last l hs x hx
  · intro p h1
    exact percentile_single l h1 p
  · intro p h2
    exact percentile_formula l p h2

/-- Witness for C2 at the concrete sorted list `[1, 2, 3]`. -/
theorem C2_percentile_spec_witness :
    percentile [1, 2, 3] 0 ∈ [(1:ℚ), 2, 3] ∧ percentile [1, 2, 3] 100 ∈ [(1:ℚ), 2, 3] := by
  have h := C2_percentile_spec [1, 2, 3] (by norm_num [List.sorted_cons]) (by simp)
  exact ⟨h.1.1, h.2.1.1⟩

end MetricsCalculator

namespace MetricsCalculator

lemma takeWhile_eq_filter_of_sorted (e : ℚ) :
    ∀ (l : List Sample), l.Pairwise (fun a b => a.timestamp ≤ b.timestamp) →
      l.takeWhile (fun x => decide (x.timestamp < e)) =
        l.filter (fun x => decide (x.timestamp < e)) := by
  intro l
  induction l with
  | nil => intro _; rfl
  | cons x xs ih =>
      intro hp
      by_cases hx : x.timestamp < e
      · rw [List.takeWhile_cons_of_pos (by simpa using hx),
          List.filter_cons_of_pos (by simpa using hx), ih hp.of_cons]
      · rw [List.takeWhile_cons_of_neg (by simpa using hx),
          List.filter_cons_of_neg (by simpa using hx)]
        have hnil : xs.filter (fun y => decide (y.timestamp < e)) = [] := by
          rw [List.filter_eq_nil_iff]
          intro a ha
          have hle : x.timestamp ≤ a.timestamp := (List.pairwise_cons.mp hp).1 a ha
          simp only [decide_eq_true_eq]
          intro hlt
          exact hx (lt_of_le_of_lt hle hlt)
        rw [hnil]

lemma foldl_add_bytes (l : List Sample) (a : ℚ) :
    l.foldl (fun acc x => acc + x.bytes) a = a + (l.map (fun x => x.bytes)).sum := by
  induction l generalizing a with
  | nil => simp
  | cons x xs ih => simp [ih, add_assoc]

lemma foldl_add_rats (l : List ℚ) (a : ℚ) :
    l.foldl (fun acc r => acc + r) a = a + l.sum := by
  induction l generalizing a with
  | nil => simp
  | cons x xs ih => simp [ih, add_assoc]

lemma jsMax_eq_maxD (l : List ℚ) (h : l ≠ []) : jsMax l = (l.max?).getD 0 := by
  cases l with
  | nil => exact absurd rfl h
  | cons x xs => rfl

lemma windowRatesAux_eq_spec :
    ∀ (rest done : List Sample),
      (done ++ rest).Pairwise (fun a b => a.timestamp < b.timestamp) →
      windowRatesAux rest =
        rest.map (fun s => specWindowRate (done ++ rest) s.timestamp) := by
  intro rest
  induction rest with
  | nil => intro done _; rfl
  | cons s rest2 ih =>
      intro done hp
      have hp2 : ((done ++ [s]) ++ rest2).Pairwise
          (fun a b => a.timestamp < b.timestamp) := by
        rw [List.append_assoc, List.singleton_append]
        exact hp
      have hdone : ∀ a ∈ done, a.timestamp < s.timestamp := by
        intro a ha
        exact (List.pairwise_append.mp hp).2.2 a ha s (by simp)
      have hsrest : ∀ x ∈ s :: rest2, s.timestamp ≤ x.timestamp := by
        intro x hx
        rcases List.mem_cons.mp hx with rfl | hmem
        · exact le_refl x.timestamp
        · exact le_of_lt
            ((List.pairwise_cons.mp (List.pairwise_append.mp hp).2.1).1 x hmem)
      have hsle : (s :: rest2).Pairwise (fun a b => a.timestamp ≤ b.timestamp) :=
        (List.pairwise_append.mp hp).2.1.imp le_of_lt
      have hfilter :
          (done ++ s :: rest2).filter
            (fun x => decide (s.timestamp ≤ x.timestamp ∧
              x.timestamp < s.timestamp + windowSizeMs)) =
          (s :: rest2).takeWhile
            (fun x => decide (x.timestamp < s.timestamp + windowSizeMs)) := by
        rw [List.filter_append]
        have h1 : done.filter
            (fun x => decide (s.timestamp ≤ x.timestamp ∧
              x.timestamp < s.timestamp + windowSizeMs)) = [] := by
          rw [List.filter_eq_nil_iff]
          intro a ha
          simp only [decide_eq_true_eq, not_and]
          intro hle
          exact absurd hle (not_le.mpr (hdone a ha))
        rw [h1, List.nil_append]
        rw [List.filter_congr (fun x hx =>
          decide_eq_decide.mpr (and_iff_right (hsrest x hx)))]
        rw [takeWhile_eq_filter_of_sorted _ _ hsle]
      have hhead : specWindowRate (done ++ s :: rest2) s.timestamp =
          windowRate (windowBytes (s :: rest2) (s.timestamp + windowSizeMs)) := by
        rw [specWindowRate, windowRate, windowBytes, hfilter, foldl_add_bytes, zero_add]
        ring
      have htail := ih (done ++ [s]) hp2
      rw [List.append_assoc, List.singleton_append] at htail
      simp only [windowRatesAux, List.map_cons]
      rw [hhead, htail]

lemma windowRatesAux_eq_spec_nil (l : List Sample)
    (hp : l.Pairwise (fun a b => a.timestamp < b.timestamp)) :
    windowRatesAux l = l.map (fun s => specWindowRate l s.timestamp) := by
  have h := windowRatesAux_eq_spec l [] (by simpa using hp)
  simpa using h

lemma measuredOf_pairwise_lt (warmupMs : ℚ) (samples : List Sample)
    (hnd : (samples.map (fun s => s.timestamp)).Nodup) :
    (measuredOf warmupMs samples).Pairwise (fun a b => a.timestamp < b.timestamp) := by
  have hsorted : (sortByTimestamp samples).Sorted
      (fun a b => a.timestamp ≤ b.timestamp) :=
    List.sorted_insertionSort _ samples
  have hperm : (sortByTimestamp samples).Perm samples :=
    List.perm_insertionSort _ samples
  have hnd2 : ((sortByTimestamp samples).map (fun s => s.timestamp)).Nodup :=
    ((hperm.map (fun s => s.timestamp)).nodup_iff).mpr hnd
  have hne : (sortByTimestamp samples).Pairwise
      (fun a b => a.timestamp ≠ b.timestamp) :=
    List.pairwise_map.mp hnd2
  have hlt : (sortByTimestamp samples).Pairwise
      (fun a b => a.timestamp < b.timestamp) :=
    (hsorted.and hne).imp (fun h => lt_of_le_of_ne h.1 h.2)
  exact hlt.filter _

lemma throughputStats_eq_spec (sr : List ℚ) (h : sr ≠ []) :
    throughputStats sr = specThroughputStats sr := by
  unfold throughputStats specThroughputStats
  rw [foldl_add_rats, zero_add, jsMax_eq_maxD sr h]

end MetricsCalculator

namespace MetricsCalculator

lemma sortRates_singleton (r : ℚ) : sortRates [r] = [r] := by
  norm_num [sortRates, List.insertionSort, List.orderedInsert]

lemma percentile_pair (a b : ℚ) : percentile [a, b] 50 = a * (1 - 1/2) + b * (1/2) := by
  have hceil : ⌈(1/2 : ℚ)⌉ = 1 := by
    rw [Int.ceil_eq_iff]
    norm_num
  rw [percentile_formula [a, b] 50 (by norm_num)]
  norm_num [hceil]

/-- Claim C1 (amended): when the recorded samples carry pairwise-distinct
timestamps, `calculateThroughput` computes exactly the specification's summary
algorithm (sort, warm-up discard, per-anchor 1000 ms window sums over all
measured samples, interpolated percentiles, average and maximum of the window
rates); an empty sample set yields all-zero metrics, and a single surviving
sample of 125000 bytes yields exactly 1.0 Mbps as its median window rate. -/
theorem C1_throughput_refinement (warmupMs : ℚ) (st : MetricsState)
    (hnd : (st.throughputSamples.map (fun s => s.timestamp)).Nodup) :
    calculateThroughput warmupMs st = specCalculateThroughput warmupMs st ∧
    (st.throughputSamples = [] → calculateThroughput warmupMs st = zeroThroughput) ∧
    (calculateThroughput 3000 singleState).medianMbps = 1 := by
  refine ⟨?_, ?_, ?_⟩
  · unfold calculateThroughput specCalculateThroughput
    by_cases h0 : st.throughputSamples.length = 0
    · rw [if_pos h0, if_pos h0]
    · rw [if_neg h0, if_neg h0]
      by_cases h1 : (measuredOf warmupMs st.throughputSamples).length = 0
      · rw [if_pos h1, if_pos h1]
      · rw [if_neg h1, if_neg h1]
        rw [windowRatesAux_eq_spec_nil _ (measuredOf_pairwise_lt warmupMs _ hnd)]
        apply throughputStats_eq_spec
        intro hcon
        have hlen := congrArg List.length hcon
        simp only [sortRates, List.length_insertionSort, List.length_map,
          List.length_nil] at hlen
        exact h1 hlen
  · intro hnil
    unfold calculateThroughput
    rw [if_pos (by rw [hnil]; rfl)]
  · have hsamp : singleState.throughputSamples = [⟨1, 0⟩, ⟨125000, 3000⟩] := rfl
    have hsort : sortByTimestamp [⟨1, 0⟩, ⟨125000, 3000⟩] = [⟨1, 0⟩, ⟨125000, 3000⟩] := by
      norm_num [sortByTimestamp, List.insertionSort, List.orderedInsert]
    have hmeas : measuredOf 3000 singleState.throughputSamples = [⟨125000, 3000⟩] := by
      rw [hsamp, measuredOf, hsort]
      norm_num
    have h0 : ¬ (singleState.throughputSamples.length = 0) := by
      rw [hsamp]; norm_num
    have h1 : ¬ ((measuredOf 3000 singleState.throughputSamples).length = 0) := by
      rw [hmeas]; norm_num
    have hwin : windowRatesAux [⟨125000, 3000⟩] = [1] := by
      norm_num [windowRatesAux, windowRate, windowBytes, windowSizeMs, List.takeWhile]
    unfold calculateThroughput
    rw [if_neg h0, if_neg h1, hmeas, hwin, sortRates_singleton]
    simp only [throughputStats]
    rw [percentile_single [1] rfl 50]
    rfl

/-- Witness for the amended claim C1 at a concrete state: the warm-up discard
leaves one 125000-byte sample, whose median window rate is exactly 1.0 Mbps. -/
theorem C1_throughput_refinement_witness :
    (calculateThroughput 3000 singleState).medianMbps = 1 :=
  (C1_throughput_refinement 3000 singleState (by
    norm_num [singleState, initState])).2.2

/-- Counterexample for claim C1 as stated: with two measured samples sharing
one timestamp, the code's window for the second anchor misses the first
sample (the inner loop starts at the anchor's index), so the code reports a
median of 1.5 Mbps while the claimed all-samples windowing reports 2 Mbps. -/
theorem C1_counterexample :
    (calculateThroughput 3000 dupState).medianMbps = 3 / 2 ∧
    (specCalculateThroughput 3000 dupState).medianMbps = 2 ∧
    ((3 : ℚ) / 2) ≠ 2 := by
  have hsamp : dupState.throughputSamples =
      [⟨1, 0⟩, ⟨125000, 3000⟩, ⟨125000, 3000⟩] := rfl
  have hsort : sortByTimestamp [⟨1, 0⟩, ⟨125000, 3000⟩, ⟨125000, 3000⟩] =
      [⟨1, 0⟩, ⟨125000, 3000⟩, ⟨125000, 3000⟩] := by
    norm_num [sortByTimestamp, List.insertionSort, List.orderedInsert]
  have hmeas : measuredOf 3000 dupState.throughputSamples =
      [⟨125000, 3000⟩, ⟨125000, 3000⟩] := by
    rw [hsamp, measuredOf, hsort]
    norm_num
  have h0 : ¬ (dupState.throughputSamples.length = 0) := by
    rw [hsamp]; norm_num
  have h1 : ¬ ((measuredOf 3000 dupState.throughputSamples).length = 0) := by
    rw [hmeas]; norm_num
  refine ⟨?_, ?_, by norm_num⟩
  · have hwin : windowRatesAux [⟨125000, 3000⟩, ⟨125000, 3000⟩] = [2, 1] := by
      norm_num [windowRatesAux, windowRate, windowBytes, windowSizeMs, List.takeWhile]
    have hsr : sortRates [(2:ℚ), 1] = [1, 2] := by
      norm_num [sortRates, List.insertionSort, List.orderedInsert]
    unfold calculateThroughput
    rw [if_neg h0, if_neg h1, hmeas, hwin, hsr]
    simp only [throughputStats]
    rw [percentile_pair 1 2]
    norm_num
  · have hrate : specWindowRate [⟨125000, 3000⟩, ⟨125000, 3000⟩] 3000 = 2 := by
      norm_num [specWindowRate, windowSizeMs]
    have hsr : sortRates [(2:ℚ), 2] = [2, 2] := by
      norm_num [sortRates, List.insertionSort, List.orderedInsert]
    unfold specCalculateThroughput
    rw [if_neg h0, if_neg h1, hmeas]
    simp only [List.map_cons, List.map_nil, hrate, hsr, specThroughputStats]
    rw [percentile_pair 2 2]
    norm_num

end MetricsCalculator

namespace MetricsCalculator

lemma addRttSample_pos (st : MetricsState) (rtt ts : ℚ) (h : 0 < st.lastRtt) :
    addRttSample st rtt ts =
      { st with
        sentEchoes := st.sentEchoes + 1,
        rttSamples := st.rttSamples ++ [(rtt, ts)],
        jitterEstimate := st.jitterEstimate + (|rtt - st.lastRtt| - st.jitterEstimate) / 16,
        jitterSamples := st.jitterSamples ++ [|rtt - st.lastRtt|],
        lastRtt := rtt } := by
  simp [addRttSample, h]

lemma addRttSample_nonpos (st : MetricsState) (rtt ts : ℚ) (h : ¬ 0 < st.lastRtt) :
    addRttSample st rtt ts =
      { st with
        sentEchoes := st.sentEchoes + 1,
        rttSamples := st.rttSamples ++ [(rtt, ts)],
        lastRtt := rtt } := by
  simp [addRttSample, h]

lemma addRtt_fold_jitter :
    ∀ (samples : List (ℚ × ℚ)) (st : MetricsState),
      (∀ s ∈ samples, 0 < s.1) →
      (samples.foldl (fun acc s => addRttSample acc s.1 s.2) st).jitterEstimate =
        specJitterEstimateGo st.jitterEstimate
          (if 0 < st.lastRtt then some st.lastRtt else none)
          (samples.map (fun s => s.1)) ∧
      (samples.foldl (fun acc s => addRttSample acc s.1 s.2) st).jitterSamples =
        st.jitterSamples ++ specDHistoryGo
          (if 0 < st.lastRtt then some st.lastRtt else none)
          (samples.map (fun s => s.1)) := by
  intro samples
  induction samples with
  | nil =>
      intro st _
      constructor <;> by_cases h : 0 < st.lastRtt <;>
        simp [h, specJitterEstimateGo, specDHistoryGo]
  | cons s rest ih =>
      intro st hpos
      have hs1 : 0 < s.1 := hpos s (by simp)
      have hrest : ∀ x ∈ rest, 0 < x.1 := fun x hx => hpos x (by simp [hx])
      simp only [List.foldl_cons, List.map_cons]
      by_cases hlast : 0 < st.lastRtt
      · rw [addRttSample_pos st s.1 s.2 hlast]
        have hih := ih { st with
          sentEchoes := st.sentEchoes + 1,
          rttSamples := st.rttSamples ++ [(s.1, s.2)],
          jitterEstimate := st.jitterEstimate + (|s.1 - st.lastRtt| - st.jitterEstimate) / 16,
          jitterSamples := st.jitterSamples ++ [|s.1 - st.lastRtt|],
          lastRtt := s.1 } hrest
        simp only [if_pos hs1] at hih
        rw [if_pos hlast]
        constructor
        · rw [hih.1, specJitterEstimateGo]
        · rw [hih.2, specDHistoryGo]
          simp [List.append_assoc]
      · rw [addRttSample_nonpos st s.1 s.2 hlast]
        have hih := ih { st with
          sentEchoes := st.sentEchoes + 1,
          rttSamples := st.rttSamples ++ [(s.1, s.2)],
          lastRtt := s.1 } hrest
        simp only [if_pos hs1] at hih
        rw [if_neg hlast]
        constructor
        · rw [hih.1, specJitterEstimateGo]
        · rw [hih.2, specDHistoryGo]

/-- Claim C3 (amended): for every RTT sequence with strictly positive values,
the jitter estimate follows the RFC-3550 recurrence (the first sample only
establishes the previous RTT, each later sample contributes
`D = |rtt - prev|` and `estimate += (D - estimate)/16`), the recorded D
history matches the specification's, the reported mean jitter is the current
estimate and the reported p95 is the percentile of the sorted D history;
`[100, 100, 100]` leaves the estimate at 0 and `[100, 200]` gives 6.25. -/
theorem C3_jitter_recurrence (samples : List (ℚ × ℚ))
    (hpos : ∀ s ∈ samples, 0 < s.1) :
    (samples.foldl (fun acc s => addRttSample acc s.1 s.2) initState).jitterEstimate =
      specJitterEstimate (samples.map (fun s => s.1)) ∧
    (samples.foldl (fun acc s => addRttSample acc s.1 s.2) initState).jitterSamples =
      specDHistory (samples.map (fun s => s.1)) ∧
    (∀ st : MetricsState, st.jitterSamples ≠ [] →
      (calculateJitter st).meanMs = st.jitterEstimate ∧
      (calculateJitter st).p95Ms = percentile (sortRates st.jitterSamples) 95) ∧
    ([((100:ℚ), (0:ℚ)), (100, 1), (100, 2)].foldl
        (fun acc s => addRttSample acc s.1 s.2) initState).jitterEstimate = 0 ∧
    ([((100:ℚ), (0:ℚ)), (200, 1)].foldl
        (fun acc s => addRttSample acc s.1 s.2) initState).jitterEstimate = 25 / 4 := by
  have hfold := addRtt_fold_jitter samples initState hpos
  have hinit : ¬ (0 : ℚ) < initState.lastRtt := by norm_num [initState]
  simp only [if_neg hinit] at hfold
  refine ⟨?_, ?_, ?_, ?_, ?_⟩
  · rw [hfold.1, specJitterEstimate]
    rfl
  · rw [hfold.2, specDHistory]
    rfl
  · intro st hne
    have hlen : ¬ st.jitterSamples.length = 0 := by
      simpa [List.length_eq_zero] using hne
    constructor <;> simp [calculateJitter, hlen]
  · norm_num [addRttSample, initState]
  · norm_num [addRttSample, initState]

/-- Witness for the amended claim C3: the RTT sequence `[100, 200]` (all
positive) drives the estimate to exactly 6.25. -/
theorem C3_jitter_recurrence_witness :
    ([((100:ℚ), (0:ℚ)), (200, 1)].foldl
        (fun acc s => addRttSample acc s.1 s.2) initState).jitterEstimate = 25 / 4 :=
  (C3_jitter_recurrence [((100:ℚ), (0:ℚ)), (200, 1)] (by norm_num)).2.2.2.2

/-- Counterexample for claim C3 as stated: the claim admits RTT values that
are merely nonnegative, but a first RTT sample of exactly 0 never passes the
`lastRtt > 0` guard, so for the sequence `[0, 100]` the code leaves the
estimate at 0 while the claimed recurrence yields `|100 - 0| / 16 = 6.25`. -/
theorem C3_counterexample :
    ([((0:ℚ), (0:ℚ)), (100, 1)].foldl
        (fun acc s => addRttSample acc s.1 s.2) initState).jitterEstimate = 0 ∧
    specJitterEstimate [0, 100] = 25 / 4 ∧
    (0 : ℚ) ≠ 25 / 4 := by
  refine ⟨?_, ?_, by norm_num⟩
  · norm_num [addRttSample, initState]
  · norm_num [specJitterEstimate, specJitterEstimateGo]

end MetricsCalculator

namespace TestOrchestrator

open MetricsCalculator

lemma addRttSample_sent (st : MetricsState) (rtt ts : ℚ) :
    (addRttSample st rtt ts).sentEchoes = st.sentEchoes + 1 := by
  by_cases h : 0 < st.lastRtt
  · rw [addRttSample_pos st rtt ts h]
  · rw [addRttSample_nonpos st rtt ts h]

lemma addRttSample_lost (st : MetricsState) (rtt ts : ℚ) :
    (addRttSample st rtt ts).lostEchoes = st.lostEchoes := by
  by_cases h : 0 < st.lastRtt
  · rw [addRttSample_pos st rtt ts h]
  · rw [addRttSample_nonpos st rtt ts h]

lemma addRttSample_rttLen (st : MetricsState) (rtt ts : ℚ) :
    (addRttSample st rtt ts).rttSamples.length = st.rttSamples.length + 1 := by
  by_cases h : 0 < st.lastRtt
  · rw [addRttSample_pos st rtt ts h]
    simp
  · rw [addRttSample_nonpos st rtt ts h]
    simp

lemma fold_outcomes (outcomes : List EchoOutcome) :
    ∀ st : MetricsState,
      (outcomes.foldl applyEchoOutcome st).sentEchoes =
        st.sentEchoes + outcomes.length ∧
      (outcomes.foldl applyEchoOutcome st).lostEchoes =
        st.lostEchoes + outcomes.countP isLostOutcome := by
  induction outcomes with
  | nil => intro st; simp
  | cons o rest ih =>
      intro st
      simp only [List.foldl_cons, List.countP_cons, List.length_cons]
      have h := ih (applyEchoOutcome st o)
      rcases o with ⟨rtt, ts⟩ | _
      · simp only [applyEchoOutcome] at h ⊢
        constructor
        · rw [h.1, addRttSample_sent]
          omega
        · rw [h.2, addRttSample_lost]
          simp [isLostOutcome]
      · simp only [applyEchoOutcome, addLostEcho] at h ⊢
        constructor
        · rw [h.1]
          omega
        · rw [h.2]
          simp [isLostOutcome]
          omega

/-- Claim C4: after any sequence of resolved probes, the packet-loss
percentage is `lostEchoes / sentEchoes * 100`, where every resolved probe
(matched or lost) increments `sentEchoes` and only timeouts increment
`lostEchoes`; zero resolved echoes give 0 percent rather than a division
error, and 10 probes with 2 lost give exactly 20 percent. -/
theorem C4_packet_loss (outcomes : List EchoOutcome) :
    (outcomes.foldl applyEchoOutcome initState).sentEchoes = outcomes.length ∧
    (outcomes.foldl applyEchoOutcome initState).lostEchoes =
      outcomes.countP isLostOutcome ∧
    calculatePacketLoss (outcomes.foldl applyEchoOutcome initState) =
      (if outcomes.length = 0 then 0
       else ((outcomes.countP isLostOutcome : ℚ) / (outcomes.length : ℚ)) * 100) ∧
    calculatePacketLoss
      ((List.replicate 2 EchoOutcome.lost ++
        List.replicate 8 (EchoOutcome.matched 5 0)).foldl applyEchoOutcome initState) = 20 ∧
    calculatePacketLoss initState = 0 := by
  have hfold := fold_outcomes outcomes initState
  have hsent : (outcomes.foldl applyEchoOutcome initState).sentEchoes = outcomes.length := by
    rw [hfold.1]
    simp [initState]
  have hlost : (outcomes.foldl applyEchoOutcome initState).lostEchoes =
      outcomes.countP isLostOutcome := by
    rw [hfold.2]
    simp [initState]
  refine ⟨hsent, hlost, ?_, ?_, ?_⟩
  · rw [calculatePacketLoss, hsent, hlost]
  · have h2 := fold_outcomes
      (List.replicate 2 EchoOutcome.lost ++ List.replicate 8 (EchoOutcome.matched 5 0))
      initState
    have hs : (List.replicate 2 EchoOutcome.lost ++
        List.replicate 8 (EchoOutcome.matched 5 0)).length = 10 := by
      simp
    have hc : (List.replicate 2 EchoOutcome.lost ++
        List.replicate 8 (EchoOutcome.matched 5 0)).countP isLostOutcome = 2 := by
      simp [List.replicate_succ, isLostOutcome]
    rw [calculatePacketLoss, h2.1, h2.2, hs, hc]
    norm_num [initState]
  · rw [calculatePacketLoss]
    simp [initState]

end TestOrchestrator

namespace MetricsCalculator

lemma windowBytes_nonneg (l : List Sample) (e : ℚ) (h : ∀ s ∈ l, 0 ≤ s.bytes) :
    0 ≤ windowBytes l e := by
  rw [windowBytes, foldl_add_bytes, zero_add]
  apply List.sum_nonneg
  intro x hx
  simp only [List.mem_map] at hx
  obtain ⟨s, hs, rfl⟩ := hx
  exact h s (List.takeWhile_subset _ hs)

lemma windowRate_nonneg (b : ℚ) (h : 0 ≤ b) : 0 ≤ windowRate b := by
  rw [windowRate, windowSizeMs]
  have h1 : (1000:ℚ)/1000 = 1 := by norm_num
  rw [h1, div_one]
  apply div_nonneg _ (by norm_num)
  linarith

lemma windowRatesAux_nonneg :
    ∀ (l : List Sample), (∀ s ∈ l, 0 ≤ s.bytes) → ∀ r ∈ windowRatesAux l, 0 ≤ r := by
  intro l
  induction l with
  | nil => intro _ r hr; simp [windowRatesAux] at hr
  | cons s rest ih =>
      intro h r hr
      simp only [windowRatesAux, List.mem_cons] at hr
      rcases hr with rfl | hr
      · exact windowRate_nonneg _ (windowBytes_nonneg _ _ h)
      · exact ih (fun x hx => h x (by simp [hx])) r hr

lemma mem_measuredOf_mem (warmupMs : ℚ) (samples : List Sample) (s : Sample)
    (hs : s ∈ measuredOf warmupMs samples) : s ∈ samples := by
  simp only [measuredOf] at hs
  have hs2 : s ∈ sortByTimestamp samples := List.mem_of_mem_filter hs
  rw [sortByTimestamp] at hs2
  exact ((List.perm_insertionSort _ samples).mem_iff).mp hs2

lemma calculateThroughput_avg_nonneg (warmupMs : ℚ) (st : MetricsState)
    (h : ∀ s ∈ st.throughputSamples, 0 ≤ s.bytes) :
    0 ≤ (calculateThroughput warmupMs st).avgMbps := by
  unfold calculateThroughput
  by_cases h0 : st.throughputSamples.length = 0
  · rw [if_pos h0]
    norm_num [zeroThroughput]
  · rw [if_neg h0]
    by_cases h1 : (measuredOf warmupMs st.throughputSamples).length = 0
    · rw [if_pos h1]
      norm_num [zeroThroughput]
    · rw [if_neg h1]
      simp only [throughputStats]
      rw [foldl_add_rats, zero_add]
      apply div_nonneg
      · apply List.sum_nonneg
        intro x hx
        have hx2 : x ∈ windowRatesAux (measuredOf warmupMs st.throughputSamples) := by
          rw [sortRates] at hx
          exact ((List.perm_insertionSort _ _).mem_iff).mp hx
        refine windowRatesAux_nonneg _ ?_ x hx2
        intro s hs
        exact h s (mem_measuredOf_mem warmupMs _ s hs)
      · exact Nat.cast_nonneg _

/-- Claim C5: for every state accumulated from nonnegative byte samples, the
stability score is `round(clamp(100 - cv*100 - latencyPenalty, 0, 100))` with
`cv = |median - avg| / avg` (0 when avg is 0) and
`latencyPenalty = min(p95RttMs / 10, 50)`; in particular a zero average
throughput together with a zero p95 RTT yields exactly 100. -/
theorem C5_stability_formula (warmupMs : ℚ) (st : MetricsState)
    (hbytes : ∀ s ∈ st.throughputSamples, 0 ≤ s.bytes) :
    calculateStability warmupMs st =
      round (max 0 (min 100
        (100 - specCv (calculateThroughput warmupMs st) * 100 -
          min ((calculateLatency st).p95Ms / 10) 50))) ∧
    ((calculateThroughput warmupMs st).avgMbps = 0 →
      (calculateLatency st).p95Ms = 0 →
      calculateStability warmupMs st = 100) := by
  have havg := calculateThroughput_avg_nonneg warmupMs st hbytes
  have hcv : stabilityCv (calculateThroughput warmupMs st) =
      specCv (calculateThroughput warmupMs st) := by
    rw [stabilityCv, specCv]
    rcases lt_or_eq_of_le havg with hpos | hzero
    · rw [if_pos hpos, if_neg (ne_of_gt hpos)]
    · rw [if_neg (by rw [← hzero]; exact lt_irrefl 0), if_pos hzero.symm]
  constructor
  · rw [calculateStability, hcv]
  · intro h0 hp95
    have hcv0 : stabilityCv (calculateThroughput warmupMs st) = 0 := by
      rw [stabilityCv, h0]
      norm_num
    rw [calculateStability, hcv0, hp95]
    have h1 : min ((0:ℚ)/10) 50 = 0 := by norm_num
    have h2 : (100:ℚ) - 0 * 100 - 0 = 100 := by norm_num
    rw [h1, h2, min_self, max_eq_right (by norm_num : (0:ℚ) ≤ 100)]
    norm_num [round_eq]

/-- Witness for C5: the freshly reset state has zero average throughput and
zero p95 RTT, and its stability score is exactly 100. -/
theorem C5_stability_formula_witness : calculateStability 3000 initState = 100 := by
  have h := C5_stability_formula 3000 initState (by simp [initState])
  apply h.2
  · simp [calculateThroughput, initState, zeroThroughput]
  · simp [calculateLatency, initState]

end MetricsCalculator

namespace TestOrchestrator

open MetricsCalculator

lemma echoInv_init : EchoInv echoInit := by
  refine ⟨?_, ?_, ?_, ?_, ?_, ?_, ?_, ?_, ?_, ?_, ?_, ?_⟩ <;>
    simp [echoInit, initState]

lemma echoInv_step (st : EchoState) (e : EchoEvent) (h : EchoInv st) :
    EchoInv (echoStep st e) := by
  obtain ⟨hpn, hrn, hln, hpr, hpl, hrl, hpe, hre, hle, hml, hmo, hms⟩ := h
  cases e with
  | send =>
      simp only [echoStep]
      refine ⟨?_, hrn, hln, ?_, ?_, hrl, ?_, ?_, ?_, hml, hmo, hms⟩
      · rw [List.nodup_append]
        refine ⟨hpn, by simp, ?_⟩
        intro a ha hb
        simp only [List.mem_singleton] at hb
        subst hb
        exact absurd (hpe _ ha) (lt_irrefl _)
      · intro s hs
        rcases List.mem_append.mp hs with hs | hs
        · exact hpr s hs
        · simp only [List.mem_singleton] at hs
          subst hs
          intro hcon
          exact absurd (hre _ hcon) (lt_irrefl _)
      · intro s hs
        rcases List.mem_append.mp hs with hs | hs
        · exact hpl s hs
        · simp only [List.mem_singleton] at hs
          subst hs
          intro hcon
          exact absurd (hle _ hcon) (lt_irrefl _)
      · intro s hs
        rcases List.mem_append.mp hs with hs | hs
        · exact Nat.lt_succ_of_lt (hpe s hs)
        · simp only [List.mem_singleton] at hs
          subst hs
          exact Nat.lt_succ_self _
      · intro s hs
        exact Nat.lt_succ_of_lt (hre s hs)
      · intro s hs
        exact Nat.lt_succ_of_lt (hle s hs)
  | response s rtt ts =>
      simp only [echoStep]
      by_cases hmem : s ∈ st.pending
      · rw [if_pos hmem]
        refine ⟨hpn.erase s, ?_, hln, ?_, ?_, ?_, ?_, ?_, hle, ?_, ?_, ?_⟩
        · rw [List.nodup_append]
          refine ⟨hrn, by simp, ?_⟩
          intro a ha hb
          simp only [List.mem_singleton] at hb
          subst hb
          exact hpr a hmem ha
        · intro x hx
          have hx2 := (hpn.mem_erase_iff).mp hx
          intro hcon
          rcases List.mem_append.mp hcon with hc | hc
          · exact hpr x hx2.2 hc
          · simp only [List.mem_singleton] at hc
            exact hx2.1 hc
        · intro x hx
          exact hpl x (List.erase_subset s st.pending hx)
        · intro x hx
          rcases List.mem_append.mp hx with hc | hc
          · exact hrl x hc
          · simp only [List.mem_singleton] at hc
            subst hc
            exact hpl x hmem
        · intro x hx
          exact hpe x (List.erase_subset s st.pending hx)
        · intro x hx
          rcases List.mem_append.mp hx with hc | hc
          · exact hre x hc
          · simp only [List.mem_singleton] at hc
            subst hc
            exact hpe x hmem
        · simp only [addRttSample_rttLen, List.length_append, List.length_singleton]
          omega
        · rw [addRttSample_lost]
          exact hmo
        · rw [addRttSample_sent]
          simp only [List.length_append, List.length_singleton]
          omega
      · rw [if_neg hmem]
        exact ⟨hpn, hrn, hln, hpr, hpl, hrl, hpe, hre, hle, hml, hmo, hms⟩
  | timeout s =>
      simp only [echoStep]
      by_cases hmem : s ∈ st.pending
      · rw [if_pos hmem]
        refine ⟨hpn.erase s, hrn, ?_, ?_, ?_, ?_, ?_, hre, ?_, ?_, ?_, ?_⟩
        · rw [List.nodup_append]
          refine ⟨hln, by simp, ?_⟩
          intro a ha hb
          simp only [List.mem_singleton] at hb
          subst hb
          exact hpl a hmem ha
        · intro x hx
          exact hpr x (List.erase_subset s st.pending hx)
        · intro x hx
          have hx2 := (hpn.mem_erase_iff).mp hx
          intro hcon
          rcases List.mem_append.mp hcon with hc | hc
          · exact hpl x hx2.2 hc
          · simp only [List.mem_singleton] at hc
            exact hx2.1 hc
        · intro x hx
          intro hcon
          rcases List.mem_append.mp hcon with hc | hc
          · exact hrl x hx hc
          · simp only [List.mem_singleton] at hc
            subst hc
            exact hpr x hmem hx
        · intro x hx
          exact hpe x (List.erase_subset s st.pending hx)
        · intro x hx
          rcases List.mem_append.mp hx with hc | hc
          · exact hle x hc
          · simp only [List.mem_singleton] at hc
            subst hc
            exact hpe x hmem
        · simp only [addLostEcho]
          exact hml
        · simp only [addLostEcho, List.length_append, List.length_singleton]
          omega
        · simp only [addLostEcho, List.length_append, List.length_singleton]
          omega
      · rw [if_neg hmem]
        exact ⟨hpn, hrn, hln, hpr, hpl, hrl, hpe, hre, hle, hml, hmo, hms⟩

lemma echoInv_fold (trace : List EchoEvent) :
    EchoInv (trace.foldl echoStep echoInit) := by
  suffices h : ∀ st, EchoInv st → EchoInv (trace.foldl echoStep st) from
    h echoInit echoInv_init
  induction trace with
  | nil => intro st h; exact h
  | cons e rest ih =>
      intro st h
      exact ih _ (echoInv_step st e h)

/-- Claim C6: over every event trace, each pending echo has at most one
outcome: the sequence numbers resolved to RTT samples and those counted as
losses never overlap (and each appears at most once), the metrics counters
agree with those resolutions one-for-one, and a response or timeout whose
sequence number is not pending leaves the state unchanged (silent drop). -/
theorem C6_pending_echo_exclusive (trace : List EchoEvent) :
    (∀ s : ℕ,
      ((trace.foldl echoStep echoInit).rttSeqs.count s) +
        ((trace.foldl echoStep echoInit).lostSeqs.count s) ≤ 1) ∧
    (trace.foldl echoStep echoInit).metrics.rttSamples.length =
      (trace.foldl echoStep echoInit).rttSeqs.length ∧
    (trace.foldl echoStep echoInit).metrics.lostEchoes =
      (trace.foldl echoStep echoInit).lostSeqs.length ∧
    (trace.foldl echoStep echoInit).metrics.sentEchoes =
      (trace.foldl echoStep echoInit).rttSeqs.length +
        (trace.foldl echoStep echoInit).lostSeqs.length ∧
    (∀ (s : ℕ) (rtt ts : ℚ), s ∉ (trace.foldl echoStep echoInit).pending →
      echoStep (trace.foldl echoStep echoInit) (.response s rtt ts) =
        trace.foldl echoStep echoInit) ∧
    (∀ s : ℕ, s ∉ (trace.foldl echoStep echoInit).pending →
      echoStep (trace.foldl echoStep echoInit) (.timeout s) =
        trace.foldl echoStep echoInit) := by
  obtain ⟨hpn, hrn, hln, hpr, hpl, hrl, hpe, hre, hle, hml, hmo, hms⟩ :=
    echoInv_fold trace
  refine ⟨?_, hml, hmo, hms, ?_, ?_⟩
  · intro s
    by_cases hr : s ∈ (trace.foldl echoStep echoInit).rttSeqs
    · have hcr := List.nodup_iff_count_le_one.mp hrn s
      have hcl : (trace.foldl echoStep echoInit).lostSeqs.count s = 0 :=
        List.count_eq_zero.mpr (hrl s hr)
      omega
    · have hcr : (trace.foldl echoStep echoInit).rttSeqs.count s = 0 :=
        List.count_eq_zero.mpr hr
      have hcl := List.nodup_iff_count_le_one.mp hln s
      omega
  · intro s rtt ts hs
    simp [echoStep, hs]
  · intro s hs
    simp [echoStep, hs]

end TestOrchestrator

namespace TestOrchestrator

/-- Claim C7 evidence: an abort at any point of the stream phases or cooldown
does not change the terminal result — a run whose discovery and latency setup
succeeded reports `complete` even when it was cancelled mid-phase, and no
input whatsoever makes `start()` report `cancelled`, because every stream task
swallows `AbortError` and the discovery/latency failures are rethrown as plain
errors. -/
theorem C7_cancelled_unreachable :
    startRun true true (some 2) = Terminal.complete ∧
    (∀ (c w : Bool) (a : Option ℕ), startRun c w a ≠ Terminal.cancelled) ∧
    (∀ (c w : Bool) (a b : Option ℕ), startRun c w a = startRun c w b) := by
  refine ⟨rfl, ?_, ?_⟩
  · intro c w a
    cases c <;> cases w <;>
      simp [startRun, runDiscoveryStep, startLatencyStep, streamPhaseStep,
        cooldownStep, terminalOfError]
  · intro c w a b
    cases c <;> cases w <;> rfl

end TestOrchestrator

namespace SpeedtestServer

lemma dlLoop_le : ∀ (ticks : List DlTick) (endTime : ℤ) (b : ℕ),
    b ≤ MAX_BYTES_PER_STREAM → dlLoop ticks endTime b ≤ MAX_BYTES_PER_STREAM := by
  intro ticks
  induction ticks with
  | nil =>
      intro e b hb
      simpa [dlLoop] using hb
  | cons t rest ih =>
      intro e b hb
      simp only [dlLoop]
      split
      · exact hb
      · next hstop =>
          apply ih
          have hlt : ¬ MAX_BYTES_PER_STREAM ≤ b := fun hcon =>
            hstop (Or.inr (Or.inl hcon))
          by_cases hc : MAX_BYTES_PER_STREAM < b + CHUNK_SIZE
          · rw [if_pos hc]
            omega
          · rw [if_neg hc]
            omega

/-- Claim C8 (amended): the download loop never writes past the 25 MB
per-stream ceiling and stops on the first iteration whose deadline, byte
ceiling or closed-channel condition holds; the effective duration is
`min(seconds, 120)` where an absent, unparseable or zero `seconds` parameter
falls back to 15 — there is no lower clamp to 1. -/
theorem C8_download_loop (ticks : List DlTick) (endTime : ℤ) (b : ℕ)
    (hb : b ≤ MAX_BYTES_PER_STREAM) :
    dlLoop ticks endTime b ≤ MAX_BYTES_PER_STREAM ∧
    (∀ q : ℤ, effectiveSeconds (some q) = min (if q = 0 then 15 else q) 120) ∧
    effectiveSeconds none = 15 ∧
    (∀ (t : DlTick) (rest : List DlTick),
      (endTime ≤ t.now ∨ MAX_BYTES_PER_STREAM ≤ b ∨ t.writableEnded) →
      dlLoop (t :: rest) endTime b = b) := by
  refine ⟨dlLoop_le ticks endTime b hb, fun q => rfl, by decide, ?_⟩
  intro t rest hstop
  simp only [dlLoop, if_pos hstop]

/-- Witness for the amended claim C8 at one concrete tick. -/
theorem C8_download_loop_witness :
    dlLoop [⟨0, false⟩] 1000 0 ≤ MAX_BYTES_PER_STREAM :=
  (C8_download_loop [⟨0, false⟩] 1000 0 (by decide)).1

/-- Counterexample for claim C8 as stated: a requested duration of -3 seconds
is passed through as -3 by `Math.min(parseInt(seconds) || 15, 120)`, whereas
clamping to [1, 120] would give 1. -/
theorem C8_counterexample :
    effectiveSeconds (some (-3)) = -3 ∧ specClampSeconds (-3) = 1 ∧
    ((-3 : ℤ) ≠ 1) := by
  refine ⟨by decide, by decide, by decide⟩

lemma uploadDataSecure_live (st : UpState) (len : ℕ) (h : st.destroyed = false) :
    uploadDataSecure st len =
      (if MAX_UPLOAD_SIZE < st.receivedBytes + len then
        { st with
          receivedBytes := st.receivedBytes + len,
          paused := true,
          response := some .tooLarge,
          destroyed := true }
      else { st with receivedBytes := st.receivedBytes + len }) := by
  rw [uploadDataSecure, if_neg (by simp [h])]

lemma uploadDataSecure_destroyed : ∀ (chunks : List ℕ) (st : UpState),
    st.destroyed = true → chunks.foldl uploadDataSecure st = st := by
  intro chunks
  induction chunks with
  | nil => intro st _; rfl
  | cons c rest ih =>
      intro st h
      simp only [List.foldl_cons, uploadDataSecure, if_pos h]
      exact ih st h

lemma uploadSecure_fold_ok : ∀ (chunks : List ℕ) (st : UpState),
    st.destroyed = false →
    st.receivedBytes + chunks.sum ≤ MAX_UPLOAD_SIZE →
    chunks.foldl uploadDataSecure st =
      { st with receivedBytes := st.receivedBytes + chunks.sum } := by
  intro chunks
  induction chunks with
  | nil =>
      intro st h1 _
      simp
  | cons c rest ih =>
      intro st h1 h2
      simp only [List.sum_cons] at h2
      simp only [List.foldl_cons]
      rw [uploadDataSecure_live st c h1, if_neg (by omega)]
      rw [ih { st with receivedBytes := st.receivedBytes + c } h1 (by simp; omega)]
      simp [Nat.add_assoc]

lemma uploadSecure_fold_over : ∀ (chunks : List ℕ) (st : UpState),
    st.destroyed = false →
    st.receivedBytes ≤ MAX_UPLOAD_SIZE →
    MAX_UPLOAD_SIZE < st.receivedBytes + chunks.sum →
    (chunks.foldl uploadDataSecure st).response = some .tooLarge ∧
    (chunks.foldl uploadDataSecure st).destroyed = true := by
  intro chunks
  induction chunks with
  | nil =>
      intro st _ hle hlt
      simp only [List.sum_nil, Nat.add_zero] at hlt
      omega
  | cons c rest ih =>
      intro st h1 hle hlt
      simp only [List.sum_cons] at hlt
      simp only [List.foldl_cons]
      rw [uploadDataSecure_live st c h1]
      by_cases hc : MAX_UPLOAD_SIZE < st.receivedBytes + c
      · rw [if_pos hc]
        rw [uploadDataSecure_destroyed rest _ rfl]
        exact ⟨rfl, rfl⟩
      · rw [if_neg hc]
        exact ih { st with receivedBytes := st.receivedBytes + c } h1
          (by simp; omega) (by simp; omega)

/-- Claim C9 (amended): the secure upload handler refuses any stream whose
accumulated bytes exceed the 100 MB ceiling with an entity-too-large result
and destroys the connection, and returns `{receivedBytes, durationMs}` on the
natural end of a within-limit stream. -/
theorem C9_upload_limit (chunks : List ℕ) (durationMs : ℤ) :
    (chunks.sum ≤ MAX_UPLOAD_SIZE →
      (runUploadSecure chunks durationMs).response =
        some (.ok chunks.sum durationMs) ∧
      (runUploadSecure chunks durationMs).destroyed = false) ∧
    (MAX_UPLOAD_SIZE < chunks.sum →
      (runUploadSecure chunks durationMs).response = some .tooLarge ∧
      (runUploadSecure chunks durationMs).destroyed = true) := by
  constructor
  · intro hle
    rw [runUploadSecure,
      uploadSecure_fold_ok chunks upInit rfl (by simpa [upInit] using hle)]
    constructor <;> simp [uploadEndSecure, upInit]
  · intro hlt
    have h := uploadSecure_fold_over chunks upInit rfl (by simp [upInit])
      (by simpa [upInit] using hlt)
    rw [runUploadSecure, uploadEndSecure, if_pos h.2]
    exact h

/-- Witness for the amended claim C9: a 100-byte upload ends naturally and
returns its byte count and duration. -/
theorem C9_upload_limit_witness :
    (runUploadSecure [100] 5).response = some (.ok 100 5) :=
  ((C9_upload_limit [100] 5).1 (by decide)).1

/-- Counterexample for claim C9 as stated: the basic `/upload` handler, fed a
chunk that exceeds its 25 MB ceiling, sends no response at all (no
entity-too-large refusal) and leaves the connection intact — it only pauses
the stream. -/
theorem C9_counterexample :
    MAX_BYTES_PER_STREAM < (runUploadBasicData [26214401]).receivedBytes ∧
    (runUploadBasicData [26214401]).response = none ∧
    (runUploadBasicData [26214401]).destroyed = false ∧
    (runUploadBasicData [26214401]).paused = true := by
  refine ⟨by decide, by decide, by decide, by decide⟩

end SpeedtestServer

namespace TestOrchestrator

open MetricsCalculator

lemma applyDirected_fold : ∀ (events : List DirectedSample) (st : MetricsState),
    events.foldl applyDirectedSample st =
      { st with throughputSamples :=
          st.throughputSamples ++ events.map stripDirection } := by
  intro events
  induction events with
  | nil => intro st; simp
  | cons e rest ih =>
      intro st
      simp only [List.foldl_cons, List.map_cons]
      rw [ih]
      rcases e with ⟨b, t⟩ | ⟨b, t⟩ <;>
        simp [applyDirectedSample, recordDownloadSample, recordUploadSample,
          addThroughputSample, stripDirection]

/-- Claim C10: download-phase and upload-phase samples are appended through
the same `addThroughputSample` into one shared list, so the final sample list
is the direction-stripped event list, relabelling every sample's direction
changes nothing, and the throughput summary is computed over the combined
download-and-upload sample set. -/
theorem C10_shared_sample_list (events : List DirectedSample) :
    (events.foldl applyDirectedSample initState).throughputSamples =
      events.map stripDirection ∧
    events.foldl applyDirectedSample initState =
      (events.map flipDirection).foldl applyDirectedSample initState ∧
    calculateThroughput 3000 (events.foldl applyDirectedSample initState) =
      calculateThroughput 3000
        { initState with throughputSamples := events.map stripDirection } := by
  have hstrip : stripDirection ∘ flipDirection = stripDirection := by
    funext e
    rcases e with ⟨b, t⟩ | ⟨b, t⟩ <;> rfl
  refine ⟨?_, ?_, ?_⟩
  · rw [applyDirected_fold]
    simp [initState]
  · rw [applyDirected_fold, applyDirected_fold (events.map flipDirection) initState]
    rw [List.map_map, hstrip]
  · rw [applyDirected_fold]
    simp [initState]

end TestOrchestrator
